import Mathlib

/-!
Shallow embedding of the Review-Joining Filter Worker of the
sistemas-distribuidos-tp2 repository (src/review_filter/src/review_filter.py
and its collaborators under src/common/).

Python dictionaries are embedded as association lists with unique keys
(`aget`/`aset`/`adel`), python sets of client ids as duplicate-free lists
(`nadd`/`nremove`), and the persistence directory as a typed record
(`Store`) holding the append-only lists keyed BOOKS_<client_id> and the two
overwrite snapshots keyed EOFS and REQUEUE_EOF.
-/

namespace RF

/-- Association-list lookup; models python `d[k]` / `d.get(k)` (dict keys are
unique, so first match is the match). -/
def aget {α β : Type} [DecidableEq α] : List (α × β) → α → Option β
  | [], _ => none
  | (k, v) :: rest, a => if k = a then some v else aget rest a

/-- Association-list overwrite-or-append; models python `d[k] = v`. -/
def aset {α β : Type} [DecidableEq α] : List (α × β) → α → β → List (α × β)
  | [], a, b => [(a, b)]
  | (k, v) :: rest, a, b => if k = a then (a, b) :: rest else (k, v) :: aset rest a b

/-- Association-list key removal; models python `d.pop(k, None)`. -/
def adel {α β : Type} [DecidableEq α] : List (α × β) → α → List (α × β)
  | [], _ => []
  | (k, v) :: rest, a => if k = a then rest else (k, v) :: adel rest a

/-- The keys of an association list; models python `k in d`. -/
def akeys {α β : Type} (l : List (α × β)) : List α := l.map Prod.fst

/-- Python `set.add`: no-op on a member, otherwise insert. -/
def nadd (s : List Nat) (x : Nat) : List Nat := if x ∈ s then s else s ++ [x]

/-- Python `set.discard` / guarded `set.remove`. -/
def nremove (s : List Nat) (x : Nat) : List Nat := s.filter (fun y => y ≠ x)

/-- Book record as consumed by the filter (src/common/book.py); the worker
only uses title, authors and the routing ids. -/
structure Book where
  title : String
  authors : String
  client_id : Nat
  packet_id : Nat
deriving DecidableEq

/-- Review record (src/common/review.py); `Review.decode` keeps score as the
raw wire field, so it is a String here. -/
structure Review where
  book_title : String
  score : String
  text : String
  client_id : Nat
  packet_id : Nat
deriving DecidableEq

/-- Modelled from the spec: the enriched review
{title, score, text, author, client_id, packet_id} built by
ReviewFilter._filter_review; the class common/review_and_author.py is not
under src/. Field order follows the ReviewAndAuthor constructor call at
src/review_filter/src/review_filter.py lines 209-216. -/
structure ReviewAndAuthor where
  title : String
  score : String
  text : String
  authors : String
  client_id : Nat
  packet_id : Nat
deriving DecidableEq

/-- Modelled from the spec: the EOF barrier token
{client_id, packet_id, ack_instances : ordered list of shard ids} that
review_filter.py manipulates (fields read at lines 170-171, 185, 191-199);
the EOFPacket class actually defining these fields is not under src/ (the
file src/common/eof_packet.py is a stale field-less version, see
EOFPacketSrc below). -/
structure EOFPacket where
  client_id : Nat
  packet_id : Nat
  ack_instances : List Nat
deriving DecidableEq

/-- The EOFPacket class exactly as written in src/common/eof_packet.py:
its constructor takes no arguments and stores nothing. -/
structure EOFPacketSrc where
deriving DecidableEq

/-- src/common/eof_packet.py lines 13-15: `payload` returns `[]`. -/
def EOFPacketSrc.payload (_ : EOFPacketSrc) : List String := []

/-- src/common/eof_packet.py lines 17-19: `decode(fields)` ignores its
argument and returns the field-less `EOFPacket()`. -/
def EOFPacketSrc.decode (_ : List String) : EOFPacketSrc := ⟨⟩

/-- Modelled from the spec: the persistence directory of the worker
(class common/persistence_manager.py is not under src/, spec section 4.3):
append-only lists under keys BOOKS_<client_id>, plus the two overwrite
snapshots under keys EOFS and REQUEUE_EOF, each a serialized list of
client ids. -/
structure Store where
  bookLists : List (Nat × List (String × String))
  eofsVal : Option (List Nat)
  requeueVal : Option (List Nat)
deriving DecidableEq

/-- Modelled from the spec: `append(f"books_{client_id}", json.dumps([title, authors]))`
appends one (title, authors) record to the list under BOOKS_<client_id>. -/
def Store.appendBook (s : Store) (c : Nat) (p : String × String) : Store :=
  { s with bookLists := aset s.bookLists c ((aget s.bookLists c).getD [] ++ [p]) }

/-- Modelled from the spec: `delete_keys(f"books_{client_id}")`. -/
def Store.deleteBooks (s : Store) (c : Nat) : Store :=
  { s with bookLists := adel s.bookLists c }

/-- Modelled from the spec: `put(EOFS_KEY, json.dumps(list(eofs)))`. -/
def Store.putEofs (s : Store) (l : List Nat) : Store :=
  { s with eofsVal := some l }

/-- Modelled from the spec: `put(REQUEUE_EOF_KEY, json.dumps(list(should_requeue_eof)))`. -/
def Store.putRequeue (s : Store) (l : List Nat) : Store :=
  { s with requeueVal := some l }

/-- The empty persistence directory of a fresh worker. -/
def emptyStore : Store := ⟨[], none, none⟩

/-- The per-shard configuration of ReviewFilter.__init__ that the handlers
consult: instance_id, cluster_size and the output destinations. -/
structure Config where
  instance_id : Nat
  cluster_size : Nat
  output_queues : List String
  output_exchanges : List String
deriving DecidableEq

/-- The mutable state of one ReviewFilter shard
(src/review_filter/src/review_filter.py lines 32-35 plus its persistence
directory): per-client book index, EOF-seen set, Requeue-pending set,
last-activity map. -/
structure FilterState where
  books : List (Nat × List (String × String))
  eofs : List Nat
  should_requeue_eof : List Nat
  last_packet_timestamp : List (Nat × Nat)
  storage : Store
deriving DecidableEq

/-- The state of a freshly constructed worker over an empty directory. -/
def emptyState : FilterState := ⟨[], [], [], [], emptyStore⟩

/-- ReviewFilter._add_book (lines 130-141): create the client entry on
demand, overwrite books[client_id][title] with the authors, and append the
(title, authors) record to the persistent BOOKS_<client_id> list. -/
def addBook (st : FilterState) (b : Book) : FilterState :=
  { st with
    books := aset st.books b.client_id
      (aset ((aget st.books b.client_id).getD []) b.title b.authors),
    storage := st.storage.appendBook b.client_id (b.title, b.authors) }

/-- ReviewFilter.__add_should_requeue_eof (lines 158-161): add the client to
the Requeue-pending set and persist the updated set under REQUEUE_EOF. -/
def addShouldRequeueEof (st : FilterState) (c : Nat) : FilterState :=
  { st with
    should_requeue_eof := nadd st.should_requeue_eof c,
    storage := st.storage.putRequeue (nadd st.should_requeue_eof c) }

/-- ReviewFilter.__remove_should_requeue_eof (lines 163-166): remove the
client from the Requeue-pending set and persist the updated set. -/
def removeShouldRequeueEof (st : FilterState) (c : Nat) : FilterState :=
  { st with
    should_requeue_eof := nremove st.should_requeue_eof c,
    storage := st.storage.putRequeue (nremove st.should_requeue_eof c) }

/-- The first persistence-locked block of ReviewFilter._reset_filter
(lines 144-148): pop the client's book index entry, delete its persistent
BOOKS list, discard it from EOF-seen and persist the updated EOFS set. -/
def resetFilterCore (st : FilterState) (c : Nat) : FilterState :=
  { st with
    books := adel st.books c,
    eofs := nremove st.eofs c,
    storage := ((st.storage.deleteBooks c).putEofs (nremove st.eofs c)) }

/-- ReviewFilter._reset_filter (lines 142-156): drop the client's book
index entry and its persistent list, discard it from EOF-seen and persist
EOFS, remove it from Requeue-pending (persisting) when present, and drop
its last-activity entry. -/
def resetFilter (st : FilterState) (c : Nat) : FilterState :=
  let st2 : FilterState :=
    if c ∈ st.should_requeue_eof then removeShouldRequeueEof (resetFilterCore st c) c
    else resetFilterCore st c
  { st2 with last_packet_timestamp := adel st2.last_packet_timestamp c }

/-- The stamping step shared by both EOF handlers (lines 170-171 and
191-192): append this shard id to ack_instances unless already present. -/
def stampEof (i : Nat) (l : List Nat) : List Nat := if i ∈ l then l else l ++ [i]

/-- ReviewFilter.handle_books_eof (lines 168-182): stamp the token and
refresh last-activity when this shard is not in ack_instances yet; always
add the client to EOF-seen and persist EOFS; when |ack_instances| equals
cluster_size do nothing further, otherwise re-emit the stamped token to the
books queue (the returned Option is the `return_eof` re-emission). -/
def handleBooksEof (cfg : Config) (now : Nat) (st : FilterState) (pkt : EOFPacket) :
    FilterState × Option EOFPacket :=
  let acks := stampEof cfg.instance_id pkt.ack_instances
  let st1 : FilterState :=
    if cfg.instance_id ∈ pkt.ack_instances then st
    else { st with last_packet_timestamp := aset st.last_packet_timestamp pkt.client_id now }
  let st2 : FilterState :=
    { st1 with eofs := nadd st1.eofs pkt.client_id,
               storage := st1.storage.putEofs (nadd st1.eofs pkt.client_id) }
  if acks.length = cfg.cluster_size then (st2, none)
  else (st2, some { pkt with ack_instances := acks })

/-- The guard of ReviewFilter.handle_reviews_eof line 185: the client still
has books and has not seen Books-EOF, or is in Requeue-pending. -/
def reviewsEofGuard (st : FilterState) (c : Nat) : Bool :=
  (decide (c ∉ st.eofs) && decide (c ∈ akeys st.books)) || decide (c ∈ st.should_requeue_eof)

/-- The three possible effects of handle_reviews_eof: requeue the token
unchanged (CallbackAction.REQUEUE), forward a fresh EOF downstream, or
re-emit the stamped token to the reviews queue via return_eof. -/
inductive ReviewsEofResult where
  | requeue (st : FilterState)
  | forward (st : FilterState) (fresh : EOFPacket)
  | returnEof (st : FilterState) (stamped : EOFPacket)
deriving DecidableEq

/-- ReviewFilter.handle_reviews_eof (lines 184-202): when the guard holds,
drop the client from Requeue-pending if present and requeue the token
unchanged; otherwise stamp the token and reset the filter if this shard had
not stamped it, then either forward a fresh EOF (carrying only client_id
and packet_id) downstream when |ack_instances| equals cluster_size, or
re-emit the stamped token to the reviews queue. -/
def handleReviewsEof (cfg : Config) (st : FilterState) (pkt : EOFPacket) :
    ReviewsEofResult :=
  if reviewsEofGuard st pkt.client_id then
    .requeue
      (if pkt.client_id ∈ st.should_requeue_eof then removeShouldRequeueEof st pkt.client_id
       else st)
  else if (stampEof cfg.instance_id pkt.ack_instances).length = cfg.cluster_size then
    .forward (if cfg.instance_id ∈ pkt.ack_instances then st else resetFilter st pkt.client_id)
      ⟨pkt.client_id, pkt.packet_id, []⟩
  else
    .returnEof (if cfg.instance_id ∈ pkt.ack_instances then st else resetFilter st pkt.client_id)
      { pkt with ack_instances := stampEof cfg.instance_id pkt.ack_instances }

/-- Modelled from the spec: CallbackAction of the reviews middleware
(common/middleware.py of the worker is not under src/): ACK acknowledges
the delivery, REQUEUE returns it to the queue for redelivery. -/
inductive CallbackAction where
  | ACK
  | REQUEUE
deriving DecidableEq

/-- The outcome of one _filter_review invocation: the successor state, the
acknowledgement action returned to the middleware, and the enriched review
sent downstream when the join succeeds. -/
structure ReviewResult where
  state : FilterState
  action : CallbackAction
  emitted : Option ReviewAndAuthor
deriving DecidableEq

/-- The last-activity refresh `self.last_packet_timestamp[client_id] = time.time()`
performed at the top of _filter_review and in the stamping branch of
handle_books_eof. -/
def touch (st : FilterState) (c : Nat) (now : Nat) : FilterState :=
  { st with last_packet_timestamp := aset st.last_packet_timestamp c now }

/-- ReviewFilter._filter_review (lines 204-224): refresh last-activity;
when the title is in the client's book index, emit the enriched review and
ACK; otherwise, when the client has not seen Books-EOF, record it in
Requeue-pending (persisting on first addition) and REQUEUE; otherwise ACK
without emission. -/
def filterReview (st : FilterState) (now : Nat) (r : Review) : ReviewResult :=
  match aget ((aget st.books r.client_id).getD []) r.book_title with
  | some author =>
      ⟨touch st r.client_id now, .ACK,
        some ⟨r.book_title, r.score, r.text, author, r.client_id, r.packet_id⟩⟩
  | none =>
      if r.client_id ∈ st.eofs then ⟨touch st r.client_id now, .ACK, none⟩
      else if r.client_id ∈ st.should_requeue_eof then
        ⟨touch st r.client_id now, .REQUEUE, none⟩
      else ⟨addShouldRequeueEof (touch st r.client_id now) r.client_id, .REQUEUE, none⟩

/-- An output destination of Middleware.send: a named queue or a fanout
exchange. -/
inductive Dest where
  | queue (name : String)
  | exch (name : String)
deriving DecidableEq

/-- Middleware.send (src/common/middleware.py lines 48-53): publish the
message to every configured output queue and then to every configured
output exchange. -/
def sendAll {α : Type} (qs es : List String) (m : α) : List (Dest × α) :=
  qs.map (fun q => (Dest.queue q, m)) ++ es.map (fun e => (Dest.exch e, m))

/-- The downstream publications of one _filter_review invocation:
middleware.send of the enriched review when the join succeeds, nothing
otherwise. -/
def reviewEmissions (cfg : Config) (res : ReviewResult) : List (Dest × ReviewAndAuthor) :=
  match res.emitted with
  | some e => sendAll cfg.output_queues cfg.output_exchanges e
  | none => []

/-- The per-client dict rebuilt from one persistent BOOKS list
(ReviewFilter._init_state lines 228-235): fold the appended records in
order into a fresh dict. -/
def buildDict (l : List (String × String)) : List (String × String) :=
  l.foldl (fun d p => aset d p.1 p.2) []

/-- The book index rebuilt from every BOOKS_<client_id> key of the store
(keys are unique, enumerated in directory order). -/
def booksOfStore (s : Store) : List (Nat × List (String × String)) :=
  s.bookLists.map (fun e => (e.1, buildDict e.2))

/-- ReviewFilter._init_state (lines 226-249): rebuild the book index from
all BOOKS_<client_id> keys, read EOFS into EOF-seen (defaulting to the
empty set), seed last-activity with the current time for every client in
EOF-seen, and read REQUEUE_EOF into Requeue-pending. -/
def initState (store : Store) (now : Nat) : FilterState :=
  let eo := (store.eofsVal).getD []
  { books := booksOfStore store,
    eofs := eo,
    should_requeue_eof := (store.requeueVal).getD [],
    last_packet_timestamp := eo.map (fun c => (c, now)),
    storage := store }

/-- One circulation of a Reviews-EOF token through the cluster: each step
is (shard id, that shard's local state); a forwarded fresh EOF counts as
one downstream emission and consumes the token, a returned token goes on to
the next step, a requeued token is redelivered unchanged. The result is the
number of downstream Reviews-EOF emissions of the whole circulation. -/
def runReviewsBarrier (n : Nat) (steps : List (Nat × FilterState)) (pkt : EOFPacket) : Nat :=
  match steps with
  | [] => 0
  | (i, st) :: rest =>
      match handleReviewsEof ⟨i, n, [], []⟩ st pkt with
      | .forward _ _ => 1
      | .returnEof _ stamped => runReviewsBarrier n rest stamped
      | .requeue _ => runReviewsBarrier n rest pkt

/-! ## Helper lemmas on the dict and set embeddings -/

theorem aget_aset_self {α β : Type} [DecidableEq α] (l : List (α × β)) (k : α) (v : β) :
    aget (aset l k v) k = some v := by
  induction l with
  | nil => simp [aset, aget]
  | cons hd tl ih =>
      obtain ⟨a, b⟩ := hd
      by_cases h : a = k
      · subst h; simp [aset, aget]
      · simp [aset, aget, h, ih]

theorem aget_aset_ne {α β : Type} [DecidableEq α] (l : List (α × β)) (k q : α) (v : β)
    (h : q ≠ k) : aget (aset l k v) q = aget l q := by
  induction l with
  | nil => simp [aset, aget, Ne.symm h]
  | cons hd tl ih =>
      obtain ⟨a, b⟩ := hd
      by_cases hak : a = k
      · subst hak
        simp [aset, aget, Ne.symm h]
      · by_cases haq : a = q
        · subst haq
          simp [aset, aget, hak]
        · simp [aset, aget, hak, haq, ih]

theorem aget_eq_none_of_not_mem_keys {α β : Type} [DecidableEq α] (l : List (α × β)) (k : α)
    (h : k ∉ akeys l) : aget l k = none := by
  induction l with
  | nil => simp [aget]
  | cons hd tl ih =>
      obtain ⟨a, b⟩ := hd
      have h1 : ¬(a = k) := by
        intro hh
        subst hh
        exact h (by simp [akeys])
      have h2 : k ∉ akeys tl := by
        intro hh
        apply h
        simp only [akeys, List.map_cons, List.mem_cons]
        exact Or.inr (by simpa [akeys] using hh)
      simp only [aget, if_neg h1]
      exact ih h2

theorem aget_adel_self {α β : Type} [DecidableEq α] (l : List (α × β)) (k : α)
    (hnd : (akeys l).Nodup) : aget (adel l k) k = none := by
  induction l with
  | nil => simp [adel, aget]
  | cons hd tl ih =>
      obtain ⟨a, b⟩ := hd
      simp only [akeys, List.map_cons, List.nodup_cons] at hnd
      by_cases h : a = k
      · subst h
        simp only [adel, if_pos rfl]
        exact aget_eq_none_of_not_mem_keys tl a hnd.1
      · simp only [adel, if_neg h, aget, if_neg h]
        exact ih hnd.2

theorem mem_nadd_self (s : List Nat) (x : Nat) : x ∈ nadd s x := by
  unfold nadd
  split
  · assumption
  · simp

theorem not_mem_nremove_self (s : List Nat) (x : Nat) : x ∉ nremove s x := by
  simp [nremove]

theorem mem_nremove_of_ne (s : List Nat) (x y : Nat) (h : y ≠ x) :
    (y ∈ nremove s x) ↔ y ∈ s := by
  simp [nremove, h]

theorem aget_map_snd {α β γ : Type} [DecidableEq α] (l : List (α × β)) (f : β → γ) (k : α) :
    aget (l.map (fun e => (e.1, f e.2))) k = (aget l k).map f := by
  induction l with
  | nil => rfl
  | cons hd tl ih =>
      obtain ⟨a, b⟩ := hd
      by_cases h : a = k <;> simp [aget, h, ih]

theorem akeys_map_to_pair (l : List Nat) (now : Nat) :
    akeys (l.map (fun c => (c, now))) = l := by
  induction l with
  | nil => rfl
  | cons hd tl ih => simp [akeys, List.map_map] at ih ⊢; exact ih

/-! ## Characterization lemmas for the handlers -/

theorem filterReview_found (st : FilterState) (now : Nat) (r : Review) (a : String)
    (h : aget ((aget st.books r.client_id).getD []) r.book_title = some a) :
    filterReview st now r =
      ⟨touch st r.client_id now, CallbackAction.ACK,
        some ⟨r.book_title, r.score, r.text, a, r.client_id, r.packet_id⟩⟩ := by
  unfold filterReview
  split
  · rename_i a2 heq
    rw [h] at heq
    cases heq
    rfl
  · rename_i heq
    rw [h] at heq
    cases heq

theorem filterReview_miss_seen (st : FilterState) (now : Nat) (r : Review)
    (h : aget ((aget st.books r.client_id).getD []) r.book_title = none)
    (he : r.client_id ∈ st.eofs) :
    filterReview st now r = ⟨touch st r.client_id now, CallbackAction.ACK, none⟩ := by
  unfold filterReview
  split
  · rename_i a2 heq
    rw [h] at heq
    cases heq
  · rw [if_pos he]

theorem filterReview_miss_unseen (st : FilterState) (now : Nat) (r : Review)
    (h : aget ((aget st.books r.client_id).getD []) r.book_title = none)
    (he : r.client_id ∉ st.eofs) :
    filterReview st now r =
      ⟨(if r.client_id ∈ st.should_requeue_eof then touch st r.client_id now
        else addShouldRequeueEof (touch st r.client_id now) r.client_id),
        CallbackAction.REQUEUE, none⟩ := by
  unfold filterReview
  split
  · rename_i a2 heq
    rw [h] at heq
    cases heq
  · rw [if_neg he]
    by_cases hr : r.client_id ∈ st.should_requeue_eof
    · rw [if_pos hr, if_pos hr]
    · rw [if_neg hr, if_neg hr]

/-! ## Claim theorems -/

/-- C1: per-review join contract of _filter_review: when the review's
title is in the client's book index with author a, the enriched review
(title, score, text, a, client_id, packet_id) is published to every
configured output queue and exchange and the delivery is ACKed; when the
title is absent and the client is not in EOF-seen, the client is recorded
in Requeue-pending (persisted on first addition) and the review is
REQUEUEd with no emission; when the title is absent and the client is in
EOF-seen, the review is ACKed with no emission and no state change beyond
the last-activity refresh. -/
theorem C1_per_review_join_contract (cfg : Config) (st : FilterState) (now : Nat)
    (r : Review) :
    (∀ a : String,
      aget ((aget st.books r.client_id).getD []) r.book_title = some a →
      (filterReview st now r).action = CallbackAction.ACK ∧
      (filterReview st now r).emitted =
        some ⟨r.book_title, r.score, r.text, a, r.client_id, r.packet_id⟩ ∧
      (∀ q ∈ cfg.output_queues,
        (Dest.queue q,
          (⟨r.book_title, r.score, r.text, a, r.client_id, r.packet_id⟩ : ReviewAndAuthor)) ∈
          reviewEmissions cfg (filterReview st now r)) ∧
      (∀ e ∈ cfg.output_exchanges,
        (Dest.exch e,
          (⟨r.book_title, r.score, r.text, a, r.client_id, r.packet_id⟩ : ReviewAndAuthor)) ∈
          reviewEmissions cfg (filterReview st now r))) ∧
    (aget ((aget st.books r.client_id).getD []) r.book_title = none →
      r.client_id ∉ st.eofs →
      (filterReview st now r).action = CallbackAction.REQUEUE ∧
      (filterReview st now r).emitted = none ∧
      reviewEmissions cfg (filterReview st now r) = [] ∧
      r.client_id ∈ (filterReview st now r).state.should_requeue_eof ∧
      (r.client_id ∉ st.should_requeue_eof →
        (filterReview st now r).state.storage.requeueVal =
          some ((filterReview st now r).state.should_requeue_eof))) ∧
    (aget ((aget st.books r.client_id).getD []) r.book_title = none →
      r.client_id ∈ st.eofs →
      (filterReview st now r).action = CallbackAction.ACK ∧
      (filterReview st now r).emitted = none ∧
      reviewEmissions cfg (filterReview st now r) = [] ∧
      (filterReview st now r).state = touch st r.client_id now) := by
  refine ⟨?_, ?_, ?_⟩
  · intro a h
    rw [filterReview_found st now r a h]
    refine ⟨rfl, rfl, ?_, ?_⟩
    · intro q hq
      simp only [reviewEmissions, sendAll]
      exact List.mem_append_left _ (List.mem_map.mpr ⟨q, hq, rfl⟩)
    · intro e he2
      simp only [reviewEmissions, sendAll]
      exact List.mem_append_right _ (List.mem_map.mpr ⟨e, he2, rfl⟩)
  · intro h he
    rw [filterReview_miss_unseen st now r h he]
    by_cases hr : r.client_id ∈ st.should_requeue_eof
    · rw [if_pos hr]
      exact ⟨rfl, rfl, rfl, hr, fun hn => absurd hr hn⟩
    · rw [if_neg hr]
      exact ⟨rfl, rfl, rfl, mem_nadd_self _ _, fun _ => rfl⟩
  · intro h he
    rw [filterReview_miss_seen st now r h he]
    exact ⟨rfl, rfl, rfl, rfl⟩

/-- Witness for C1: a stored book is joined and published, and a review
with no matching book for a client that has not seen Books-EOF is
requeued. -/
theorem C1_per_review_join_contract_witness :
    (filterReview ⟨[(1, [("A", "X")])], [], [], [], emptyStore⟩ 3
      ⟨"A", "5", "good", 1, 7⟩).emitted = some ⟨"A", "5", "good", "X", 1, 7⟩ ∧
    (Dest.queue "q1", (⟨"A", "5", "good", "X", 1, 7⟩ : ReviewAndAuthor)) ∈
      reviewEmissions ⟨0, 2, ["q1"], ["e1"]⟩
        (filterReview ⟨[(1, [("A", "X")])], [], [], [], emptyStore⟩ 3
          ⟨"A", "5", "good", 1, 7⟩) ∧
    (filterReview ⟨[], [], [], [], emptyStore⟩ 3 ⟨"B", "1", "t", 2, 8⟩).action =
      CallbackAction.REQUEUE :=
  ⟨((C1_per_review_join_contract ⟨0, 2, ["q1"], ["e1"]⟩
      ⟨[(1, [("A", "X")])], [], [], [], emptyStore⟩ 3 ⟨"A", "5", "good", 1, 7⟩).1 "X"
      (by decide)).2.1,
    ((C1_per_review_join_contract ⟨0, 2, ["q1"], ["e1"]⟩
      ⟨[(1, [("A", "X")])], [], [], [], emptyStore⟩ 3 ⟨"A", "5", "good", 1, 7⟩).1 "X"
      (by decide)).2.2.1 "q1" (by decide),
    ((C1_per_review_join_contract ⟨0, 2, ["q1"], ["e1"]⟩
      ⟨[], [], [], [], emptyStore⟩ 3 ⟨"B", "1", "t", 2, 8⟩).2.1 (by decide) (by decide)).1⟩

/-- C2: Reviews-EOF ordering guard: when the client still has books and is
not in EOF-seen, or is in Requeue-pending, handle_reviews_eof requeues the
token unchanged (the result is the REQUEUE action with no stamped token
and no downstream emission), removing the client from Requeue-pending and
persisting the updated set when it was a member, and touching nothing at
all otherwise. -/
theorem C2_reviews_eof_ordering_guard (cfg : Config) (st : FilterState) (pkt : EOFPacket)
    (h : (pkt.client_id ∉ st.eofs ∧ pkt.client_id ∈ akeys st.books) ∨
      pkt.client_id ∈ st.should_requeue_eof) :
    ∃ st1 : FilterState,
      handleReviewsEof cfg st pkt = ReviewsEofResult.requeue st1 ∧
      pkt.client_id ∉ st1.should_requeue_eof ∧
      st1.books = st.books ∧ st1.eofs = st.eofs ∧
      st1.last_packet_timestamp = st.last_packet_timestamp ∧
      (pkt.client_id ∈ st.should_requeue_eof →
        st1.should_requeue_eof = nremove st.should_requeue_eof pkt.client_id ∧
        st1.storage.requeueVal = some (nremove st.should_requeue_eof pkt.client_id)) ∧
      (pkt.client_id ∉ st.should_requeue_eof → st1 = st) := by
  have hg : reviewsEofGuard st pkt.client_id = true := by
    unfold reviewsEofGuard
    rcases h with ⟨h1, h2⟩ | h3
    · simp [h1, h2]
    · simp [h3]
  unfold handleReviewsEof
  rw [if_pos hg]
  by_cases hr : pkt.client_id ∈ st.should_requeue_eof
  · refine ⟨removeShouldRequeueEof st pkt.client_id, ?_, ?_, rfl, rfl, rfl, ?_, ?_⟩
    · rw [if_pos hr]
    · exact not_mem_nremove_self _ _
    · exact fun _ => ⟨rfl, rfl⟩
    · intro hn
      exact absurd hr hn
  · refine ⟨st, ?_, hr, rfl, rfl, rfl, ?_, fun _ => rfl⟩
    · rw [if_neg hr]
    · intro hc
      exact absurd hc hr

/-- Witness for C2 at a concrete state where client 1 still has books and
has not seen Books-EOF: the Reviews-EOF token is requeued and the state is
untouched. -/
theorem C2_reviews_eof_ordering_guard_witness :
    handleReviewsEof ⟨0, 2, [], []⟩ ⟨[(1, [("A", "X")])], [], [], [], emptyStore⟩
      ⟨1, 9, []⟩ = ReviewsEofResult.requeue ⟨[(1, [("A", "X")])], [], [], [], emptyStore⟩ := by
  obtain ⟨st1, h1, _, _, _, _, _, h7⟩ :=
    C2_reviews_eof_ordering_guard ⟨0, 2, [], []⟩
      ⟨[(1, [("A", "X")])], [], [], [], emptyStore⟩ ⟨1, 9, []⟩
      (Or.inl (by decide))
  rw [h7 (by decide)] at h1
  exact h1

/-- C5: Books-EOF handling: the client is always added to EOF-seen and the
updated set persisted under the EOFS key; when the stamped ack_instances
list has reached cluster_size nothing is re-emitted (the books stream
terminates here), otherwise the stamped token is re-emitted to the books
queue. -/
theorem C5_books_eof_handling (cfg : Config) (now : Nat) (st : FilterState)
    (pkt : EOFPacket) :
    pkt.client_id ∈ (handleBooksEof cfg now st pkt).1.eofs ∧
    (handleBooksEof cfg now st pkt).1.storage.eofsVal =
      some ((handleBooksEof cfg now st pkt).1.eofs) ∧
    ((stampEof cfg.instance_id pkt.ack_instances).length = cfg.cluster_size →
      (handleBooksEof cfg now st pkt).2 = none) ∧
    ((stampEof cfg.instance_id pkt.ack_instances).length ≠ cfg.cluster_size →
      (handleBooksEof cfg now st pkt).2 =
        some { pkt with ack_instances := stampEof cfg.instance_id pkt.ack_instances }) := by
  unfold handleBooksEof
  by_cases hmem : cfg.instance_id ∈ pkt.ack_instances <;>
    by_cases hlen : (stampEof cfg.instance_id pkt.ack_instances).length = cfg.cluster_size <;>
      simp [hmem, hlen, Store.putEofs, mem_nadd_self]

/-- Witness for C5 at shard 0 of a 2-shard cluster receiving an unstamped
Books-EOF of client 5: the client enters EOF-seen and the stamped token is
re-emitted. -/
theorem C5_books_eof_handling_witness :
    5 ∈ (handleBooksEof ⟨0, 2, [], []⟩ 3 emptyState ⟨5, 9, []⟩).1.eofs ∧
    (handleBooksEof ⟨0, 2, [], []⟩ 3 emptyState ⟨5, 9, []⟩).2 = some ⟨5, 9, [0]⟩ :=
  ⟨(C5_books_eof_handling ⟨0, 2, [], []⟩ 3 emptyState ⟨5, 9, []⟩).1,
    (C5_books_eof_handling ⟨0, 2, [], []⟩ 3 emptyState ⟨5, 9, []⟩).2.2.2 (by decide)⟩

/-- C4: the claim states that every EOF message carries client_id,
packet_id and an ack_instances list, constructible from a client_id and a
packet_id and surviving an encode/decode round trip. The EOFPacket class
written in src/common/eof_packet.py carries none of these: it is a
field-less subsingleton whose payload is always empty and whose decode
discards the wire fields, contradicting its own callers at
src/review_filter/src/review_filter.py lines 170, 191-199. -/
theorem C4_src_eofpacket_carries_nothing :
    (∀ p q : EOFPacketSrc, p = q) ∧
    EOFPacketSrc.payload (EOFPacketSrc.decode ["7", "3", "[0, 1]"]) = [] := by
  constructor
  · intro p q
    cases p
    cases q
    rfl
  · rfl

/-- C6: Books-EOF stamping is idempotent: when this shard id is already in
ack_instances, handling the token again leaves ack_instances unchanged (the
re-emitted token, if any, is the unmodified token), and a shard id with at
most one occurrence keeps at most one occurrence under any number of
redeliveries of the stamping step. -/
theorem C6_books_eof_stamp_idempotent (cfg : Config) (now : Nat) (st : FilterState)
    (pkt : EOFPacket) (h : cfg.instance_id ∈ pkt.ack_instances) :
    (handleBooksEof cfg now st pkt).2 =
      (if pkt.ack_instances.length = cfg.cluster_size then none else some pkt) ∧
    (∀ (l : List Nat) (n : Nat), List.count cfg.instance_id l ≤ 1 →
      List.count cfg.instance_id ((stampEof cfg.instance_id)^[n] l) ≤ 1) := by
  constructor
  · unfold handleBooksEof
    simp only [stampEof, if_pos h]
    split <;> rfl
  · intro l n
    induction n generalizing l with
    | zero => intro hl; simpa using hl
    | succ m ih =>
        intro hl
        rw [Function.iterate_succ_apply]
        apply ih
        unfold stampEof
        split
        · exact hl
        · rename_i hmem
          rw [List.count_append]
          have h0 : List.count cfg.instance_id l = 0 := List.count_eq_zero.mpr hmem
          simp [h0, List.count_singleton]

/-- Witness for C6 at a concrete already-stamped token. -/
theorem C6_books_eof_stamp_idempotent_witness :
    (handleBooksEof ⟨0, 2, [], []⟩ 7 emptyState ⟨5, 9, [0]⟩).2 = some ⟨5, 9, [0]⟩ := by
  have h := (C6_books_eof_stamp_idempotent ⟨0, 2, [], []⟩ 7 emptyState ⟨5, 9, [0]⟩
    (by decide)).1
  simpa using h

/-- C7 counterexample: the claim states that processing a book for a client
already in EOF-seen leaves the in-memory index and the persisted
BOOKS_<client_id> list unchanged. With client 1 in EOF-seen and an empty
index, _add_book for a book of client 1 changes both. -/
theorem C7_counterexample :
    1 ∈ (⟨[], [1], [], [], ⟨[], some [1], none⟩⟩ : FilterState).eofs ∧
    (addBook ⟨[], [1], [], [], ⟨[], some [1], none⟩⟩ ⟨"A", "X", 1, 0⟩).books ≠
      (⟨[], [1], [], [], ⟨[], some [1], none⟩⟩ : FilterState).books ∧
    (addBook ⟨[], [1], [], [], ⟨[], some [1], none⟩⟩ ⟨"A", "X", 1, 0⟩).storage.bookLists ≠
      (⟨[], [1], [], [], ⟨[], some [1], none⟩⟩ : FilterState).storage.bookLists := by
  decide

/-- C7 amended: _add_book has no EOF-seen guard: processing a book for a
client already in EOF-seen still inserts (title, authors) into that
client's index and appends the pair to the persisted BOOKS_<client_id>
list, exactly as for any other client. -/
theorem C7_amended_add_book_unconditional (st : FilterState) (b : Book)
    (h : b.client_id ∈ st.eofs) :
    aget ((aget (addBook st b).books b.client_id).getD []) b.title = some b.authors ∧
    aget (addBook st b).storage.bookLists b.client_id =
      some ((aget st.storage.bookLists b.client_id).getD [] ++ [(b.title, b.authors)]) := by
  constructor
  · unfold addBook
    simp only [aget_aset_self, Option.getD_some]
  · unfold addBook Store.appendBook
    exact aget_aset_self _ _ _

/-- Witness for C7's amended theorem at a concrete state with client 1 in
EOF-seen. -/
theorem C7_amended_witness :
    aget ((aget (addBook ⟨[], [1], [], [], emptyStore⟩ ⟨"A", "X", 1, 0⟩).books 1).getD [])
      "A" = some "X" :=
  (C7_amended_add_book_unconditional ⟨[], [1], [], [], emptyStore⟩ ⟨"A", "X", 1, 0⟩
    (by decide)).1

/-- C10: inserting a book whose title is already stored for that client
overwrites the author (last writer wins), leaves every other title of that
client unchanged, and leaves every other client's index entry unchanged. -/
theorem C10_insert_overwrites (st : FilterState) (b : Book) (a0 : String)
    (h : aget ((aget st.books b.client_id).getD []) b.title = some a0) :
    aget ((aget (addBook st b).books b.client_id).getD []) b.title = some b.authors ∧
    (∀ t : String, t ≠ b.title →
      aget ((aget (addBook st b).books b.client_id).getD []) t =
        aget ((aget st.books b.client_id).getD []) t) ∧
    (∀ c : Nat, c ≠ b.client_id → aget (addBook st b).books c = aget st.books c) := by
  refine ⟨?_, ?_, ?_⟩
  · unfold addBook
    simp only [aget_aset_self, Option.getD_some]
  · intro t ht
    unfold addBook
    simp only [aget_aset_self, Option.getD_some]
    exact aget_aset_ne _ _ _ _ ht
  · intro c hc
    unfold addBook
    exact aget_aset_ne _ _ _ _ hc

/-- Witness for C10 at a concrete index where title A of client 1 is
overwritten from author X to author Y while client 2 is untouched. -/
theorem C10_insert_overwrites_witness :
    aget ((aget (addBook ⟨[(1, [("A", "X")]), (2, [("B", "Z")])], [], [], [], emptyStore⟩
      ⟨"A", "Y", 1, 0⟩).books 1).getD []) "A" = some "Y" :=
  (C10_insert_overwrites ⟨[(1, [("A", "X")]), (2, [("B", "Z")])], [], [], [], emptyStore⟩
    ⟨"A", "Y", 1, 0⟩ "X" (by decide)).1

theorem resetFilter_eq_pos (st : FilterState) (c : Nat)
    (hr : c ∈ st.should_requeue_eof) :
    resetFilter st c =
      ⟨adel st.books c, nremove st.eofs c, nremove st.should_requeue_eof c,
        adel st.last_packet_timestamp c,
        ⟨adel st.storage.bookLists c, some (nremove st.eofs c),
          some (nremove st.should_requeue_eof c)⟩⟩ := by
  simp only [resetFilter]
  rw [if_pos hr]
  rfl

theorem resetFilter_eq_neg (st : FilterState) (c : Nat)
    (hr : c ∉ st.should_requeue_eof) :
    resetFilter st c =
      ⟨adel st.books c, nremove st.eofs c, st.should_requeue_eof,
        adel st.last_packet_timestamp c,
        ⟨adel st.storage.bookLists c, some (nremove st.eofs c),
          st.storage.requeueVal⟩⟩ := by
  simp only [resetFilter]
  rw [if_neg hr]
  rfl

/-- C8: reset_filter postcondition: for a state whose dict keys are unique
(the python-dict invariant of the embedding) and whose persisted
REQUEUE_EOF snapshot only lists client c when the in-memory set does,
after resetFilter(c) the client's book index entry and its persistent
BOOKS list are gone, c is out of EOF-seen with the updated set persisted,
c is out of Requeue-pending and out of any persisted REQUEUE_EOF value, c
is out of last-activity, and reopening the store (initState) yields a
state with no trace of c. -/
theorem C8_reset_filter_postcondition (st : FilterState) (c : Nat) (now : Nat)
    (hb : (akeys st.books).Nodup)
    (hs : (akeys st.storage.bookLists).Nodup)
    (hl : (akeys st.last_packet_timestamp).Nodup)
    (hmir : ∀ l : List Nat, st.storage.requeueVal = some l → c ∈ l →
      c ∈ st.should_requeue_eof) :
    aget (resetFilter st c).books c = none ∧
    aget (resetFilter st c).storage.bookLists c = none ∧
    c ∉ (resetFilter st c).eofs ∧
    (resetFilter st c).storage.eofsVal = some ((resetFilter st c).eofs) ∧
    c ∉ (resetFilter st c).should_requeue_eof ∧
    (∀ l : List Nat, (resetFilter st c).storage.requeueVal = some l → c ∉ l) ∧
    aget (resetFilter st c).last_packet_timestamp c = none ∧
    aget (initState ((resetFilter st c).storage) now).books c = none ∧
    c ∉ (initState ((resetFilter st c).storage) now).eofs ∧
    c ∉ (initState ((resetFilter st c).storage) now).should_requeue_eof ∧
    aget (initState ((resetFilter st c).storage) now).last_packet_timestamp c = none := by
  by_cases hr : c ∈ st.should_requeue_eof
  · rw [resetFilter_eq_pos st c hr]
    refine ⟨aget_adel_self _ _ hb, aget_adel_self _ _ hs, not_mem_nremove_self _ _, rfl,
      not_mem_nremove_self _ _, ?_, aget_adel_self _ _ hl, ?_, not_mem_nremove_self _ _,
      not_mem_nremove_self _ _, ?_⟩
    · intro l hsome
      cases hsome
      exact not_mem_nremove_self _ _
    · show aget (booksOfStore _) c = none
      rw [booksOfStore, aget_map_snd, aget_adel_self _ _ hs]
      rfl
    · exact aget_eq_none_of_not_mem_keys _ _
        (by show c ∉ akeys ((nremove st.eofs c).map (fun x => (x, now)))
            rw [akeys_map_to_pair]
            exact not_mem_nremove_self _ _)
  · rw [resetFilter_eq_neg st c hr]
    refine ⟨aget_adel_self _ _ hb, aget_adel_self _ _ hs, not_mem_nremove_self _ _, rfl,
      hr, ?_, aget_adel_self _ _ hl, ?_, not_mem_nremove_self _ _, ?_, ?_⟩
    · intro l hsome hc
      exact hr (hmir l hsome hc)
    · show aget (booksOfStore _) c = none
      rw [booksOfStore, aget_map_snd, aget_adel_self _ _ hs]
      rfl
    · show c ∉ (st.storage.requeueVal).getD []
      intro hc
      rcases hv : st.storage.requeueVal with _ | l
      · rw [hv] at hc
        simp at hc
      · rw [hv] at hc
        exact hr (hmir l hv hc)
    · exact aget_eq_none_of_not_mem_keys _ _
        (by show c ∉ akeys ((nremove st.eofs c).map (fun x => (x, now)))
            rw [akeys_map_to_pair]
            exact not_mem_nremove_self _ _)

/-- Witness for C8: resetting client 5 on a concrete populated state wipes
every trace of it, both in memory and after reopening the store. -/
theorem C8_reset_filter_postcondition_witness :
    aget (resetFilter ⟨[(5, [("A", "X")])], [5], [5], [(5, 10)],
      ⟨[(5, [("A", "X")])], some [5], some [5]⟩⟩ 5).books 5 = none ∧
    aget (resetFilter ⟨[(5, [("A", "X")])], [5], [5], [(5, 10)],
      ⟨[(5, [("A", "X")])], some [5], some [5]⟩⟩ 5).storage.bookLists 5 = none ∧
    5 ∉ (initState ((resetFilter ⟨[(5, [("A", "X")])], [5], [5], [(5, 10)],
      ⟨[(5, [("A", "X")])], some [5], some [5]⟩⟩ 5).storage) 3).eofs := by
  have h := C8_reset_filter_postcondition
    ⟨[(5, [("A", "X")])], [5], [5], [(5, 10)], ⟨[(5, [("A", "X")])], some [5], some [5]⟩⟩
    5 3 (by decide) (by decide) (by decide)
    (by intro l hsome hc; cases hsome; decide)
  exact ⟨h.1, h.2.1, h.2.2.2.2.2.2.2.2.1⟩

theorem map_aset_snd {α β γ : Type} [DecidableEq α] (l : List (α × β)) (f : β → γ)
    (k : α) (v : β) :
    (aset l k v).map (fun e => (e.1, f e.2)) = aset (l.map (fun e => (e.1, f e.2))) k (f v) := by
  induction l with
  | nil => rfl
  | cons hd tl ih =>
      obtain ⟨a, b⟩ := hd
      by_cases h : a = k <;> simp [aset, h, ih]

theorem buildDict_append (l : List (String × String)) (p : String × String) :
    buildDict (l ++ [p]) = aset (buildDict l) p.1 p.2 := by
  unfold buildDict
  rw [List.foldl_append]
  rfl

/-- One _add_book step preserves the mirror between the persistent
BOOKS lists and the in-memory book index. -/
theorem booksOfStore_addBook (st : FilterState) (b : Book)
    (h : booksOfStore st.storage = st.books) :
    booksOfStore (addBook st b).storage = (addBook st b).books := by
  have hd : buildDict ((aget st.storage.bookLists b.client_id).getD []) =
      (aget st.books b.client_id).getD [] := by
    rw [← h]
    simp only [booksOfStore]
    rw [aget_map_snd]
    rcases aget st.storage.bookLists b.client_id with _ | d <;> rfl
  simp only [addBook, Store.appendBook, booksOfStore] at h ⊢
  rw [map_aset_snd, buildDict_append, hd, h]

/-- The mirror holds for any state reached by a fold of _add_book steps. -/
theorem booksOfStore_foldl (bs : List Book) (st : FilterState)
    (h : booksOfStore st.storage = st.books) :
    booksOfStore ((bs.foldl addBook st).storage) = (bs.foldl addBook st).books := by
  induction bs generalizing st with
  | nil => exact h
  | cons b rest ih => exact ih (addBook st b) (booksOfStore_addBook st b h)

/-- C9: recovery round-trip: running _init_state over the persistence
directory produced by any sequence of _add_book appends followed by the
EOFS and REQUEUE_EOF snapshots rebuilds exactly that state: the book index
equals the one built in memory, EOF-seen equals the stored EOFS list,
last-activity holds the current time for exactly the clients of EOF-seen,
and Requeue-pending equals the stored REQUEUE_EOF list. -/
theorem C9_recovery_round_trip (bs : List Book) (eo rq : List Nat) (now : Nat) :
    initState ((((bs.foldl addBook emptyState).storage.putEofs eo).putRequeue rq)) now =
      { books := (bs.foldl addBook emptyState).books,
        eofs := eo,
        should_requeue_eof := rq,
        last_packet_timestamp := eo.map (fun c => (c, now)),
        storage := (((bs.foldl addBook emptyState).storage.putEofs eo).putRequeue rq) } := by
  have hmirror : booksOfStore ((bs.foldl addBook emptyState).storage) =
      (bs.foldl addBook emptyState).books := booksOfStore_foldl bs emptyState rfl
  simp only [initState, Store.putEofs, Store.putRequeue, Option.getD_some]
  congr 1

/-- When the ordering guard is false, handle_reviews_eof stamps the token
and either forwards a fresh EOF or returns the stamped token. -/
theorem handleReviewsEof_stamp (cfg : Config) (st : FilterState) (pkt : EOFPacket)
    (hg : reviewsEofGuard st pkt.client_id = false) :
    handleReviewsEof cfg st pkt =
      if (stampEof cfg.instance_id pkt.ack_instances).length = cfg.cluster_size then
        ReviewsEofResult.forward
          (if cfg.instance_id ∈ pkt.ack_instances then st else resetFilter st pkt.client_id)
          ⟨pkt.client_id, pkt.packet_id, []⟩
      else
        ReviewsEofResult.returnEof
          (if cfg.instance_id ∈ pkt.ack_instances then st else resetFilter st pkt.client_id)
          { pkt with ack_instances := stampEof cfg.instance_id pkt.ack_instances } := by
  unfold handleReviewsEof
  rw [hg]
  rw [if_neg (by simp)]

/-- A circulation of one Reviews-EOF token emits the downstream EOF at
most once. -/
theorem runReviewsBarrier_le_one (n : Nat) (steps : List (Nat × FilterState))
    (pkt : EOFPacket) : runReviewsBarrier n steps pkt ≤ 1 := by
  induction steps generalizing pkt with
  | nil => simp [runReviewsBarrier]
  | cons s rest ih =>
      obtain ⟨i, st⟩ := s
      rw [runReviewsBarrier]
      cases h : handleReviewsEof ⟨i, n, [], []⟩ st pkt with
      | requeue st1 => exact ih pkt
      | forward st1 fresh => exact Nat.le_refl 1
      | returnEof st1 stamped => exact ih stamped

/-- A circulation of one Reviews-EOF token through fresh, pairwise
distinct shards whose count completes the barrier emits the downstream
EOF exactly once. -/
theorem runReviewsBarrier_eq_one (n : Nat) (steps : List (Nat × FilterState))
    (pkt : EOFPacket)
    (hguard : ∀ s ∈ steps, reviewsEofGuard s.2 pkt.client_id = false)
    (hfresh : ∀ s ∈ steps, s.1 ∉ pkt.ack_instances)
    (hnd : (steps.map Prod.fst).Nodup)
    (hlen : pkt.ack_instances.length + steps.length = n)
    (hpos : 0 < steps.length) :
    runReviewsBarrier n steps pkt = 1 := by
  induction steps generalizing pkt with
  | nil => simp at hpos
  | cons s rest ih =>
      obtain ⟨i, st⟩ := s
      have hg : reviewsEofGuard st pkt.client_id = false :=
        hguard (i, st) (List.mem_cons_self _ _)
      have hi : i ∉ pkt.ack_instances := hfresh (i, st) (List.mem_cons_self _ _)
      have hstamp : stampEof i pkt.ack_instances = pkt.ack_instances ++ [i] := by
        simp [stampEof, hi]
      rw [runReviewsBarrier, handleReviewsEof_stamp ⟨i, n, [], []⟩ st pkt hg]
      rw [List.map_cons, List.nodup_cons] at hnd
      rw [List.length_cons] at hlen
      by_cases hN : (stampEof (Config.mk i n [] []).instance_id pkt.ack_instances).length =
          (Config.mk i n [] []).cluster_size
      · rw [if_pos hN]
      · rw [if_neg hN]
        have hN2 : pkt.ack_instances.length + 1 ≠ n := by
          intro hh
          apply hN
          show (stampEof i pkt.ack_instances).length = n
          rw [hstamp, List.length_append]
          simpa using hh
        apply ih
        · intro s hs
          exact hguard s (List.mem_cons_of_mem _ hs)
        · intro s hs
          show s.1 ∉ stampEof i pkt.ack_instances
          rw [hstamp]
          intro hmem
          rcases List.mem_append.mp hmem with h1 | h2
          · exact hfresh s (List.mem_cons_of_mem _ hs) h1
          · have hsi : s.1 = i := by simpa using h2
            have hmm : s.1 ∈ rest.map Prod.fst := List.mem_map_of_mem Prod.fst hs
            rw [hsi] at hmm
            exact hnd.1 hmm
        · exact hnd.2
        · show (stampEof i pkt.ack_instances).length + rest.length = n
          rw [hstamp, List.length_append]
          simp only [List.length_singleton]
          omega
        · rcases Nat.eq_zero_or_pos rest.length with hz | hp
          · exfalso
            apply hN2
            omega
          · exact hp

/-- C3: Reviews-EOF completion: when the ordering guard does not hold, a
token not yet stamped by this shard is stamped and reset_filter is run,
after which the handler forwards a fresh EOF carrying only client_id and
packet_id exactly when the stamped ack_instances list reaches
cluster_size, and otherwise re-emits the stamped token with nothing sent
downstream; an already-stamped token is dispatched the same way without a
second reset; and across a whole circulation of one token the downstream
EOF is emitted at most once in general, and exactly once when the token
passes through pairwise-distinct fresh shards completing the barrier. -/
theorem C3_reviews_eof_completion (cfg : Config) (st : FilterState) (pkt : EOFPacket)
    (hg : reviewsEofGuard st pkt.client_id = false) :
    (cfg.instance_id ∉ pkt.ack_instances →
      ((pkt.ack_instances ++ [cfg.instance_id]).length = cfg.cluster_size →
        handleReviewsEof cfg st pkt =
          ReviewsEofResult.forward (resetFilter st pkt.client_id)
            ⟨pkt.client_id, pkt.packet_id, []⟩) ∧
      ((pkt.ack_instances ++ [cfg.instance_id]).length ≠ cfg.cluster_size →
        handleReviewsEof cfg st pkt =
          ReviewsEofResult.returnEof (resetFilter st pkt.client_id)
            { pkt with ack_instances := pkt.ack_instances ++ [cfg.instance_id] })) ∧
    (cfg.instance_id ∈ pkt.ack_instances →
      (pkt.ack_instances.length = cfg.cluster_size →
        handleReviewsEof cfg st pkt =
          ReviewsEofResult.forward st ⟨pkt.client_id, pkt.packet_id, []⟩) ∧
      (pkt.ack_instances.length ≠ cfg.cluster_size →
        handleReviewsEof cfg st pkt = ReviewsEofResult.returnEof st pkt)) ∧
    (∀ (n : Nat) (steps : List (Nat × FilterState)) (p : EOFPacket),
      runReviewsBarrier n steps p ≤ 1) ∧
    (∀ (n : Nat) (steps : List (Nat × FilterState)) (p : EOFPacket),
      (∀ s ∈ steps, reviewsEofGuard s.2 p.client_id = false) →
      (∀ s ∈ steps, s.1 ∉ p.ack_instances) →
      (steps.map Prod.fst).Nodup →
      p.ack_instances.length + steps.length = n →
      0 < steps.length →
      runReviewsBarrier n steps p = 1) := by
  refine ⟨?_, ?_, runReviewsBarrier_le_one, runReviewsBarrier_eq_one⟩
  · intro hi
    have hstamp : stampEof cfg.instance_id pkt.ack_instances =
        pkt.ack_instances ++ [cfg.instance_id] := by simp [stampEof, hi]
    rw [handleReviewsEof_stamp cfg st pkt hg, if_neg hi, hstamp]
    constructor
    · intro hN
      rw [if_pos hN]
    · intro hN
      rw [if_neg hN]
  · intro hi
    have hstamp : stampEof cfg.instance_id pkt.ack_instances = pkt.ack_instances := by
      simp [stampEof, hi]
    rw [handleReviewsEof_stamp cfg st pkt hg, if_pos hi, hstamp]
    constructor
    · intro hN
      rw [if_pos hN]
    · intro hN
      rw [if_neg hN]

/-- Witness for C3: shard 1 of a 2-shard cluster completes the barrier on
a token already stamped by shard 0 and forwards the fresh EOF, and a full
circulation of an unstamped token through shards 0 and 1 emits the
downstream EOF exactly once. -/
theorem C3_reviews_eof_completion_witness :
    handleReviewsEof ⟨1, 2, [], []⟩ emptyState ⟨7, 3, [0]⟩ =
      ReviewsEofResult.forward (resetFilter emptyState 7) ⟨7, 3, []⟩ ∧
    runReviewsBarrier 2 [(0, emptyState), (1, emptyState)] ⟨7, 3, []⟩ = 1 :=
  ⟨((C3_reviews_eof_completion ⟨1, 2, [], []⟩ emptyState ⟨7, 3, [0]⟩ (by decide)).1
      (by decide)).1 (by decide),
    (C3_reviews_eof_completion ⟨1, 2, [], []⟩ emptyState ⟨7, 3, [0]⟩ (by decide)).2.2.2
      2 [(0, emptyState), (1, emptyState)] ⟨7, 3, []⟩ (by decide) (by decide) (by decide)
      (by decide) (by decide)⟩

end RF
